import Mathlib

/-!
Verification development for the hybrid retrieval engine of JP-LegalBot
(`ai_system/retrieve.py`, `ai_system/local_embeddings.py`, `ai_system/db.py`).

Shallow embedding conventions:
* Python floats are modelled as `ℚ` (the claims under scrutiny concern data
  flow and branch structure, never floating-point rounding).
* Python exceptions are modelled with `Except PyErr`; a `try/except` block
  that swallows an exception becomes a `match` on the `Except` value.
* External collaborators that live outside the repository (the Azure/OpenAI
  embedding API, the native FAISS search kernel, the sentence-transformer
  encoder, the sqlite FTS engine) are modelled as opaque function fields of
  the corresponding state structures.  Code of the repository itself
  (`retrieve.py`, `db.py`, `local_embeddings.py`) is translated line by line.
* `numpy` L2-normalisation of an embedding vector preserves its length
  (dimension) and the claims never depend on the numeric values of vectors,
  so normalisation is absorbed into the opaque embedding functions.
-/

/-- Python exception classes that can cross the boundaries relevant here. -/
inductive PyErr where
  | apiError        -- a failing remote embeddings.create call
  | native          -- a native (FAISS/C++) failure, e.g. dimension assert
  | fileNotFound    -- FileNotFoundError
  | valueError      -- ValueError
  | indexError      -- IndexError
  deriving DecidableEq, Repr

deriving instance DecidableEq for Except

def exceptIsOk : Except PyErr α → Bool
  | .ok _ => true
  | .error _ => false

/-! ### Python string helpers (ASCII-level fidelity) -/

/-- `w in s` for Python strings: substring test, over the character lists. -/
def isSubstrChars (needle hay : List Char) : Bool :=
  hay.tails.any (fun t => needle.isPrefixOf t)

/-- Python `s.split()` — split on whitespace, dropping empty pieces. -/
def pySplitWs (s : String) : List String :=
  (s.split Char.isWhitespace).filter (fun w => w ≠ "")

/-- Python `any(word in heading for word in query.lower().split())`,
the heading-relevance test of `_rerank_candidates` (retrieve.py:167-170). -/
def headingMatch (query heading_path : String) : Bool :=
  (pySplitWs query.toLower).any
    (fun w => isSubstrChars w.data heading_path.toLower.data)

/-- Strip leading and trailing whitespace (Python `int` tolerates both). -/
def stripWs (l : List Char) : List Char :=
  ((l.dropWhile Char.isWhitespace).reverse.dropWhile Char.isWhitespace).reverse

/-- Digits of a Python integer literal after the first digit: decimal digits
with single underscores allowed strictly between digits. -/
def pyDigitsRest : List Char → Nat → Option Nat
  | [], acc => some acc
  | '_' :: c :: rest, acc =>
      if c.isDigit then pyDigitsRest (c :: rest) acc else none
  | '_' :: [], _ => none
  | c :: rest, acc =>
      if c.isDigit then pyDigitsRest rest (acc * 10 + (c.toNat - '0'.toNat))
      else none

/-- Nonempty digit run (first char must be a digit). -/
def pyDigits : List Char → Option Nat
  | [] => none
  | c :: rest =>
      if c.isDigit then pyDigitsRest rest (c.toNat - '0'.toNat) else none

/-- Python `int(s)` for a decimal string: optional surrounding whitespace,
optional sign, digits with single underscores between digits.
`none` models a raised `ValueError`. -/
def pyInt (s : String) : Option Int :=
  match stripWs s.data with
  | '+' :: rest => (pyDigits rest).map Int.ofNat
  | '-' :: rest => (pyDigits rest).map (fun n => -(n : Int))
  | l => (pyDigits l).map Int.ofNat

/-- `[int(cid) for cid in l]` — `none` when any element raises. -/
def pyIntList : List String → Option (List Int)
  | [] => some []
  | s :: rest =>
      match pyInt s, pyIntList rest with
      | some i, some r => some (i :: r)
      | _, _ => none

/-! ### Data model -/

/-- One metadata record of `metas.jsonl` (spec §3 IndexEntry metadata). -/
structure Meta where
  chunk_id : String := ""
  doc_id : String := ""
  heading_path : String := ""
  page_start : Option Int := none
  page_end : Option Int := none
  deriving DecidableEq, Repr, Inhabited

/-- A per-query candidate dict as built by `retrieve.py`.  Keys that a given
code path leaves absent are modelled with `Option`/defaults matching the
`.get` defaults used by the source. -/
structure Candidate where
  score : ℚ := 0
  chunk_id : String := ""
  doc_id : String := ""
  heading_path : String := ""
  page_start : Option Int := none
  page_end : Option Int := none
  text : String := ""
  snippet : String := ""
  reranked_score : Option ℚ := none
  search_type : Option String := none
  combined_score : Option ℚ := none
  deriving DecidableEq, Repr, Inhabited

/-- The FAISS index as the engine sees it: a recorded dimension, a vector
count, and the native search kernel (external C++ code, hence opaque).
`searchFn` returns `(score, id)` pairs; FAISS pads with id `-1`. -/
structure FaissIndex where
  d : Nat
  ntotal : Nat
  searchFn : List ℚ → Nat → List (ℚ × Int)

/-- `index.search(qv, k)`: the native kernel fails (raises at the C++/numpy
boundary) when the query vector's dimension differs from `d`. -/
def FaissIndex.search (idx : FaissIndex) (qv : List ℚ) (k : Nat) :
    Except PyErr (List (ℚ × Int)) :=
  if qv.length ≠ idx.d then .error .native
  else .ok (idx.searchFn qv k)

/-- `index.add(embeddings)`: appends vectors; the native kernel rejects
vectors whose dimension differs from `d`.  The search kernel over the grown
index is not modelled further (no claim searches after an add). -/
def FaissIndex.add (idx : FaissIndex) (vs : List (List ℚ)) :
    Except PyErr FaissIndex :=
  if vs.all (fun v => v.length = idx.d) then
    .ok { idx with ntotal := idx.ntotal + vs.length }
  else .error .native

/-- The remote embedding client (Azure OpenAI or OpenAI): opaque API. -/
structure RemoteClient where
  create : String → Except PyErr (List ℚ)
  createBatch : List String → Except PyErr (List (List ℚ))

/-- The local sentence-transformer backend (`LocalEmbeddings`): fixed
dimension, opaque encoder (it can itself raise, cf. `encode_texts`). -/
structure LocalEmbedder where
  dimension : Nat
  encode_query : String → Except PyErr (List ℚ)

/-- One row of the sqlite `fts_chunks` table as returned by the `MATCH`
query in `db.fts_search` (columns: rowid, content, tomo, capitulo,
articulo, fuente, and the computed snippet). -/
structure RawFtsRow where
  rowid : Int := 0
  content : String := ""
  tomo : Option String := none
  capitulo : Option String := none
  articulo : Option String := none
  fuente : Option String := none
  snip : String := ""
  deriving DecidableEq, Repr, Inhabited

/-- The sqlite database: the FTS MATCH engine is external and opaque (it can
raise, e.g. on FTS5 syntax errors); `contentOf` is the `fts_chunks` table
keyed by rowid, used by `fetch_texts`. -/
structure Db where
  ftsFn : String → Nat → Except PyErr (List RawFtsRow)
  contentOf : Int → Option String

/-- Persisted artifacts next to the FAISS file: the binary index and the
`metas.jsonl` sidecar (`none` = file missing on disk). -/
structure Files where
  faissFile : Option FaissIndex := none
  metasFile : Option (List Meta) := none

/-- In-memory state of a `HybridRetriever` (retrieve.py).  In the source at
most one of `embedding_client` / `local_embedder` is set (the local backend
is only created when no remote client works), but the model keeps both
fields, as the methods consult them independently. -/
structure HybridRetriever where
  embedding_client : Option RemoteClient := none
  local_embedder : Option LocalEmbedder := none
  index : Option FaissIndex := none
  metas : List Meta := []
  db : Db
  files : Files := {}

/-! ### Stable sort (model of Python `list.sort(key=..., reverse=True)`)

Python's sort is stable.  `sortDesc` below is an insertion sort that places
each element before the first strictly-smaller key; the lemmas
`sortDesc_perm`, `pairwise_sortDesc` and `filter_key_sortDesc` prove it is a
permutation, descending, and stable — three properties that determine the
stable descending sort uniquely, hence the model coincides with CPython's
semantics. -/

def insertDesc (key : α → ℚ) (x : α) : List α → List α
  | [] => [x]
  | y :: ys => if key x < key y then y :: insertDesc key x ys else x :: y :: ys

def sortDesc (key : α → ℚ) : List α → List α
  | [] => []
  | x :: xs => insertDesc key x (sortDesc key xs)

/-! ### Rerank (`HybridRetriever._rerank_candidates`, retrieve.py:148-177) -/

/-- The scoring pass of `_rerank_candidates`: per-document diversity bonus
(+0.1 the first time a `doc_id` is seen) and heading-relevance bonus
(+0.05); `seen_docs` is the running set of document ids. -/
def rerankLoop (query : String) : List Candidate → List String → List Candidate
  | [], _ => []
  | c :: rest, seen_docs =>
      let isNew := !(seen_docs.contains c.doc_id)
      let s1 := if isNew then c.score + 1/10 else c.score
      let s2 := if headingMatch query c.heading_path then s1 + 1/20 else s1
      let seen' := if isNew then c.doc_id :: seen_docs else seen_docs
      { c with reranked_score := some s2 } :: rerankLoop query rest seen'

/-- Sort key `x.get("reranked_score", 0)`. -/
def rerankedKey (c : Candidate) : ℚ := c.reranked_score.getD 0

/-- `_rerank_candidates(candidates, query, top_k)`; the `top_k` argument is
unused in the source body as well (truncation happens at the caller). -/
def rerank_candidates (candidates : List Candidate) (query : String)
    (_top_k : Nat) : List Candidate :=
  if candidates = [] then candidates
  else sortDesc rerankedKey (rerankLoop query candidates [])

/-! ### Vector search (`HybridRetriever.search_vectors`, retrieve.py:103-146) -/

/-- The candidate-building loop over the raw `(score, id)` pairs:
skip `-1` padding, bounds-check the id against the metadata list, apply the
similarity threshold, and splice the metadata record into the candidate. -/
def buildCandidates (metas : List Meta) (similarity_threshold : ℚ) :
    List (ℚ × Int) → List Candidate
  | [] => []
  | (score, i) :: rest =>
      if i = -1 then buildCandidates metas similarity_threshold rest
      else if i < (metas.length : Int) then
        -- FAISS emits ids that are -1 or in [0, ntotal); Python's
        -- negative-index wraparound is unreachable and not modelled.
        let m := (metas.get? i.toNat).getD default
        if similarity_threshold ≤ score then
          { score := score, chunk_id := m.chunk_id, doc_id := m.doc_id,
            heading_path := m.heading_path, page_start := m.page_start,
            page_end := m.page_end } :: buildCandidates metas similarity_threshold rest
        else buildCandidates metas similarity_threshold rest
      else buildCandidates metas similarity_threshold rest

/-- `embed`: remote client first, then local embedder, else the 1-dim zero
vector `[[0.0]]`.  A failing backend call propagates (no try/except in the
source).  L2 normalisation preserves the dimension and is absorbed into the
opaque backends. -/
def HybridRetriever.embed (st : HybridRetriever) (text : String) :
    Except PyErr (List ℚ) :=
  match st.embedding_client with
  | some client => client.create text
  | none =>
      match st.local_embedder with
      | some le => le.encode_query text
      | none => .ok [0]

/-- The `if self.local_embedder and self.index:` dimension guard
(retrieve.py:114-121): fires only when the LOCAL embedder is set. -/
def dimGuard (st : HybridRetriever) : Bool :=
  match st.local_embedder, st.index with
  | some le, some idx => idx.d != le.dimension
  | _, _ => false

def HybridRetriever.search_vectors (st : HybridRetriever) (query : String)
    (k : Nat) (similarity_threshold : ℚ) : Except PyErr (List Candidate) :=
  if st.embedding_client.isNone && st.local_embedder.isNone then .ok []
  else if dimGuard st then .ok []
  else do
    let qv ← st.embed query
    match st.index with
    | none => .ok []
    | some idx =>
        if idx.ntotal = 0 then .ok []
        else do
          let raw ← idx.search qv (min (k * 3) idx.ntotal)
          let candidates := buildCandidates st.metas similarity_threshold raw
          .ok ((rerank_candidates candidates query k).take k)

/-! ### Lexical search (`db.fts_search` + `HybridRetriever.search_lexical`) -/

/-- `re.sub(r'[^\w\s]', ' ', query)` at the character level (ASCII \w). -/
def sanitizeChar (c : Char) : Char :=
  if c.isAlphanum || c = '_' || c.isWhitespace then c else ' '

/-- Query sanitisation of `db.fts_search` (db.py:28-33). -/
def sanitizeQuery (query : String) : String :=
  let s := String.mk (query.data.map sanitizeChar)
  let s := String.intercalate " " (pySplitWs s)
  if s = "" then query else s

/-- Python truthiness of a nullable sqlite text value. -/
def pyTruthyOpt : Option String → Bool
  | some s => s ≠ ""
  | none => false

/-- The adapted row dict built by `db.fts_search` (db.py:44-68). -/
structure FtsRow where
  rowid : Int := 0
  chunk_id : String := ""
  text : String := ""
  doc_id : String := ""
  heading_path : String := ""
  page_start : Option Int := none
  page_end : Option Int := none
  snip : String := ""
  deriving DecidableEq, Repr, Inhabited

def adaptFtsRow (row : RawFtsRow) : FtsRow :=
  let doc_id := row.fuente.getD ""   -- row['fuente'], then `doc_id or ''`
  let heading := if pyTruthyOpt row.tomo then "TOMO " ++ row.tomo.getD "" else ""
  let heading := if pyTruthyOpt row.capitulo then
      heading ++ " > CAPÍTULO " ++ row.capitulo.getD "" else heading
  let heading := if pyTruthyOpt row.articulo then
      heading ++ " > ARTÍCULO " ++ row.articulo.getD "" else heading
  { rowid := row.rowid, chunk_id := toString row.rowid, text := row.content,
    doc_id := doc_id, heading_path := heading,
    page_start := none, page_end := none, snip := row.snip }

/-- `db.fts_search`: the blanket `except` returns `[]` on any failure of the
underlying FTS engine (db.py:70-72). -/
def fts_search (db : Db) (query : String) (limit : Nat) : List FtsRow :=
  match db.ftsFn (sanitizeQuery query) limit with
  | .ok rows => rows.map adaptFtsRow
  | .error _ => []

def HybridRetriever.search_lexical (st : HybridRetriever) (query : String)
    (k : Nat) : List Candidate :=
  (fts_search st.db query k).map (fun r =>
    { score := 0, chunk_id := r.chunk_id, doc_id := r.doc_id,
      heading_path := r.heading_path, page_start := r.page_start,
      page_end := r.page_end, text := r.text, snippet := r.snip })

/-! ### Text hydration (`HybridRetriever.fetch_texts`, retrieve.py:193-213) -/

/-- `fetch_texts`: filters empty/"unknown" ids, converts the rest with
`int(...)` inside one try — a single unparseable id empties the whole map —
then looks the rowids up in `fts_chunks`.  The returned dict is modelled as
an association list keyed by `str(rowid)`. -/
def fetch_texts (db : Db) (chunk_ids : List String) : List (String × String) :=
  if chunk_ids = [] then []
  else
    match pyIntList (chunk_ids.filter (fun cid => cid != "" && cid != "unknown")) with
    | none => []
    | some ints =>
        if ints = [] then []
        else ints.dedup.filterMap
          (fun i => (db.contentOf i).map (fun t => (toString i, t)))

/-- `texts.get(key, dflt)` over the association-list dict model. -/
def lookupD (m : List (String × String)) (key dflt : String) : String :=
  match m.find? (fun p => p.1 == key) with
  | some p => p.2
  | none => dflt

/-! ### Fusion and composite scoring (`HybridRetriever.hybrid`, retrieve.py:215-261) -/

/-- The first fusion loop: semantic candidates, deduplicated by `chunk_id`
through the `seen` set, tagged `search_type = "semantic"`. -/
def fuseVecLoop : List Candidate → List String → List Candidate →
    (List String × List Candidate)
  | [], seen, fused => (seen, fused)
  | c :: rest, seen, fused =>
      if seen.contains c.chunk_id then fuseVecLoop rest seen fused
      else fuseVecLoop rest (c.chunk_id :: seen)
        (fused ++ [{ c with search_type := some "semantic" }])

/-- The second fusion loop: lexical candidates appended while unseen, tagged
`search_type = "lexical"`; breaks once the fused list reaches
`final_k * 2` entries (checked after each append). -/
def fuseLexLoop (final_k : Nat) : List Candidate → List String →
    List Candidate → List Candidate
  | [], _, fused => fused
  | c :: rest, seen, fused =>
      if seen.contains c.chunk_id then fuseLexLoop final_k rest seen fused
      else
        let fused' := fused ++ [{ c with search_type := some "lexical" }]
        if final_k * 2 ≤ fused'.length then fused'
        else fuseLexLoop final_k rest (c.chunk_id :: seen) fused'

def fuse (vec lex : List Candidate) (final_k : Nat) : List Candidate :=
  let sf := fuseVecLoop vec [] []
  fuseLexLoop final_k lex sf.1 sf.2

/-- Composite scoring of one fused candidate (retrieve.py:244-253):
`base = score`; `+0.1` if semantic; then, if `reranked_score` is TRUTHY
(present and nonzero — Python `if reranked:`), `base` is REPLACED by it. -/
def scoreCand (c : Candidate) : Candidate :=
  let base := c.score
  let base := if c.search_type = some "semantic" then base + 1/10 else base
  let base :=
    match c.reranked_score with
    | some r => if r = 0 then base else r
    | none => base
  { c with combined_score := some base }

/-- Sort key `x.get("combined_score", 0)`. -/
def combinedKey (c : Candidate) : ℚ := c.combined_score.getD 0

/-- Fusion, composite scoring and the final stable descending sort —
retrieve.py:218-255, everything in `hybrid` between the two searches and
the text hydration. -/
def fuseScoreRank (vec lex : List Candidate) (final_k : Nat) : List Candidate :=
  sortDesc combinedKey ((fuse vec lex final_k).map scoreCand)

/-- The hydration loop of `hybrid` (retrieve.py:259-260):
`c["text"] = texts.get(c["chunk_id"], "")` for every fused candidate. -/
def hydrateTexts (texts : List (String × String)) (l : List Candidate) :
    List Candidate :=
  l.map (fun c => { c with text := lookupD texts c.chunk_id "" })

/-- The pure tail of `hybrid` after both searches (retrieve.py:218-261):
fusion, composite scoring, stable sort, text hydration, truncation.  The
texts are fetched for the ids of the top `final_k` candidates only. -/
def hybridTail (db : Db) (vec lex : List Candidate) (final_k : Nat) :
    List Candidate :=
  (hydrateTexts
    (fetch_texts db
      (((fuseScoreRank vec lex final_k).take final_k).map (fun c => c.chunk_id)))
    (fuseScoreRank vec lex final_k)).take final_k

def HybridRetriever.hybrid (st : HybridRetriever) (query : String)
    (k_vec k_lex final_k : Nat) (similarity_threshold : ℚ) :
    Except PyErr (List Candidate) := do
  let vec ← st.search_vectors query k_vec similarity_threshold
  let lex := st.search_lexical query k_lex
  .ok (hybridTail st.db vec lex final_k)

/-! ### Incremental add (`HybridRetriever.add_to_index`, retrieve.py:263-316) -/

/-- `texts[i:i+batch_size]` slices for `i in range(0, len(texts), batch_size)`;
fuel-structured recursion (the caller guarantees `bs ≥ 1`). -/
def chunkListGo (bs : Nat) : Nat → List α → List (List α)
  | 0, _ => []
  | _, [] => []
  | fuel + 1, l => l.take bs :: chunkListGo bs fuel (l.drop bs)

def chunkList (bs : Nat) (l : List α) : List (List α) :=
  chunkListGo bs l.length l

/-- The embedding loop of `add_to_index`: each batch is embedded inside a
try/except — a failing batch is skipped (`continue`), successful batches
are concatenated in order. -/
def collectEmbeddings (client : RemoteClient) : List (List String) → List (List ℚ)
  | [] => []
  | b :: rest =>
      match client.createBatch b with
      | .ok embs => embs ++ collectEmbeddings client rest
      | .error _ => collectEmbeddings client rest

/-- A metadata dict passed to `add_to_index`; `chunk_id` may be absent
(`meta.get("chunk_id", str(uuid.uuid4()))` then fills it). -/
structure AddMeta where
  chunk_id : Option String := none
  doc_id : String := ""
  heading_path : String := ""
  page_start : Option Int := none
  page_end : Option Int := none
  deriving DecidableEq, Repr, Inhabited

/-- `meta["chunk_id"] = meta.get("chunk_id", str(uuid.uuid4()))`; the uuid
generator is an opaque supply indexed by position. -/
def resolveAddMeta (uuids : Nat → String) (i : Nat) (m : AddMeta) : Meta :=
  { chunk_id := m.chunk_id.getD (uuids i), doc_id := m.doc_id,
    heading_path := m.heading_path, page_start := m.page_start,
    page_end := m.page_end }

/-- `_save_index` (retrieve.py:306-316): writes the FAISS file and rewrites
`metas.jsonl`; its try/except makes failures non-fatal (the success path is
modelled; `write_index` on a `None` index raises and is caught, leaving the
files untouched). -/
def HybridRetriever.save_index (st : HybridRetriever) : HybridRetriever :=
  match st.index with
  | some idx =>
      { st with files := { faissFile := some idx, metasFile := some st.metas } }
  | none => st

def HybridRetriever.add_to_index (st : HybridRetriever) (texts : List String)
    (metadata : List AddMeta) (batch_size : Nat) (uuids : Nat → String) :
    Except PyErr HybridRetriever :=
  match st.embedding_client with
  | none => .ok st      -- early return (retrieve.py:265-267): nothing touched
  | some client =>
      if batch_size = 0 then .error .valueError   -- range(0, n, 0) raises
      else
        let all_embeddings := collectEmbeddings client (chunkList batch_size texts)
        if all_embeddings = [] then .ok st
        else
          match st.index with
          | none => .error .valueError   -- self.index.add on None raises
          | some idx => do
              let idx' ← idx.add all_embeddings
              let newMetas := ((List.range metadata.length).zip metadata).map
                  (fun p => resolveAddMeta uuids p.1 p.2)
              let st' := { st with index := some idx', metas := st.metas ++ newMetas }
              .ok st'.save_index

/-! ### Loading (`HybridRetriever.__init__` lines 78-85, and
`LocalEmbeddings.load_index`, local_embeddings.py:247-270) -/

/-- Index/metadata loading of the retriever constructor:
`faiss.read_index` raises if the index file is missing; a missing
`metas.jsonl` is caught and replaced by the EMPTY list (retrieve.py:80-85). -/
def loadIndexAndMetas (files : Files) : Except PyErr (FaissIndex × List Meta) :=
  match files.faissFile with
  | none => .error .fileNotFound
  | some idx =>
      match files.metasFile with
      | some metas => .ok (idx, metas)
      | none => .ok (idx, [])

/-- A `LocalEmbeddings` metadata record, modelled by its `id` field (the
placeholder records synthesized on a missing metadata file are `{"id": i}`). -/
structure LEMeta where
  id : Nat
  deriving DecidableEq, Repr, Inhabited

structure LocalEmbeddingsState where
  dimension : Nat
  index : Option FaissIndex := none
  metadata : List LEMeta := []

/-- `LocalEmbeddings.load_index`: raises on a missing index file; a missing
metadata file is replaced by sequential placeholder ids `[{"id": i}]`. -/
def LocalEmbeddingsState.load_index (st : LocalEmbeddingsState)
    (indexFile : Option FaissIndex) (metadataFile : Option (List LEMeta)) :
    Except PyErr LocalEmbeddingsState :=
  match indexFile with
  | none => .error .fileNotFound
  | some idx =>
      match metadataFile with
      | some md => .ok { st with index := some idx, metadata := md }
      | none =>
          let placeholders : List LEMeta := (List.range idx.ntotal).map (fun i => { id := i })
          .ok { st with index := some idx, metadata := placeholders }

/-- The result-collection loop of `LocalEmbeddings.search`
(local_embeddings.py:182-186): keep hits with `idx != -1 and score >=
threshold`; `self.metadata[idx]` raises IndexError when out of range. -/
def leCollect (metadata : List LEMeta) (threshold : ℚ) :
    List (ℚ × Int) → Except PyErr (List (ℚ × Int × LEMeta))
  | [] => .ok []
  | (s, i) :: rest =>
      if i ≠ -1 ∧ threshold ≤ s then
        match metadata.get? i.toNat with
        | some m => (leCollect metadata threshold rest).map (fun r => (s, i, m) :: r)
        | none => .error .indexError
      else leCollect metadata threshold rest

/-- `LocalEmbeddings.search` (local_embeddings.py:155-193); the returned
triple of parallel arrays is modelled as one list of triples. -/
def LocalEmbeddingsState.search (st : LocalEmbeddingsState) (qv : List ℚ)
    (k : Nat) (threshold : ℚ) : Except PyErr (List (ℚ × Int × LEMeta)) :=
  match st.index with
  | none => .error .valueError   -- "Índice no creado" ValueError
  | some idx => do
      let raw ← idx.search qv (min k idx.ntotal)
      leCollect st.metadata threshold raw

/-! ### Lemmas about the stable sort -/

theorem perm_insertDesc (key : α → ℚ) (x : α) :
    ∀ l : List α, List.Perm (insertDesc key x l) (x :: l)
  | [] => List.Perm.refl _
  | y :: ys => by
      by_cases h : key x < key y
      · simp only [insertDesc, if_pos h]
        exact ((perm_insertDesc key x ys).cons y).trans (List.Perm.swap x y ys)
      · simp [insertDesc, if_neg h]

theorem sortDesc_perm (key : α → ℚ) :
    ∀ l : List α, List.Perm (sortDesc key l) l
  | [] => List.Perm.refl _
  | x :: xs =>
      (perm_insertDesc key x (sortDesc key xs)).trans ((sortDesc_perm key xs).cons x)

theorem mem_sortDesc {key : α → ℚ} {l : List α} {a : α} :
    a ∈ sortDesc key l ↔ a ∈ l :=
  (sortDesc_perm key l).mem_iff

theorem length_sortDesc (key : α → ℚ) (l : List α) :
    (sortDesc key l).length = l.length :=
  (sortDesc_perm key l).length_eq

theorem mem_insertDesc {key : α → ℚ} {l : List α} {x a : α} :
    a ∈ insertDesc key x l ↔ a = x ∨ a ∈ l := by
  rw [(perm_insertDesc key x l).mem_iff, List.mem_cons]

theorem pairwise_insertDesc (key : α → ℚ) (x : α) :
    ∀ l : List α, List.Pairwise (fun a b => key b ≤ key a) l →
      List.Pairwise (fun a b => key b ≤ key a) (insertDesc key x l)
  | [], _ => by simp [insertDesc]
  | y :: ys, h => by
      rcases List.pairwise_cons.mp h with ⟨hy, hys⟩
      by_cases hlt : key x < key y
      · simp only [insertDesc, if_pos hlt]
        refine List.pairwise_cons.mpr ⟨?_, pairwise_insertDesc key x ys hys⟩
        intro z hz
        rcases mem_insertDesc.mp hz with rfl | hz
        · exact le_of_lt hlt
        · exact hy z hz
      · simp only [insertDesc, if_neg hlt]
        push_neg at hlt
        refine List.pairwise_cons.mpr ⟨?_, h⟩
        intro z hz
        rcases List.mem_cons.mp hz with rfl | hz
        · exact hlt
        · exact le_trans (hy z hz) hlt

/-- `sortDesc` output is descending in the key. -/
theorem pairwise_sortDesc (key : α → ℚ) :
    ∀ l : List α, List.Pairwise (fun a b => key b ≤ key a) (sortDesc key l)
  | [] => List.Pairwise.nil
  | x :: xs => pairwise_insertDesc key x (sortDesc key xs) (pairwise_sortDesc key xs)

theorem filter_insertDesc (key : α → ℚ) (q : ℚ) (x : α) :
    ∀ l : List α,
      (insertDesc key x l).filter (fun a => decide (key a = q)) =
        if key x = q then x :: l.filter (fun a => decide (key a = q))
        else l.filter (fun a => decide (key a = q))
  | [] => by
      by_cases h : key x = q <;> simp [insertDesc, List.filter, h]
  | y :: ys => by
      by_cases hlt : key x < key y
      · simp only [insertDesc, if_pos hlt]
        by_cases hx : key x = q
        · have hy : ¬ (key y = q) := by
            intro hyq; rw [hx] at hlt; rw [hyq] at hlt; exact lt_irrefl q hlt
          simp [List.filter_cons, hy, filter_insertDesc key q x ys, hx]
        · simp [List.filter_cons, filter_insertDesc key q x ys, hx]
      · simp only [insertDesc, if_neg hlt]
        by_cases hx : key x = q <;> simp [List.filter_cons, hx]

/-- Stability of `sortDesc`: elements sharing any key value `q` keep their
original relative order (the classic filter characterisation). -/
theorem filter_key_sortDesc (key : α → ℚ) (q : ℚ) :
    ∀ l : List α,
      (sortDesc key l).filter (fun a => decide (key a = q)) =
        l.filter (fun a => decide (key a = q))
  | [] => rfl
  | x :: xs => by
      rw [sortDesc, filter_insertDesc key q x (sortDesc key xs),
        filter_key_sortDesc key q xs]
      by_cases hx : key x = q <;> simp [List.filter_cons, hx]

/-! ### Lemmas about the rerank pass -/

theorem rerankLoop_length (query : String) :
    ∀ (l : List Candidate) (seen : List String),
      (rerankLoop query l seen).length = l.length
  | [], _ => rfl
  | _ :: rest, seen => by
      simp only [rerankLoop, List.length_cons]
      rw [rerankLoop_length query rest]

/-- Positional characterisation of the rerank scoring pass, generalised over
the running `seen_docs` set. -/
theorem rerankLoop_get?_general (query : String) :
    ∀ (l : List Candidate) (seen : List String) (i : Nat) (hi : i < l.length),
      (rerankLoop query l seen).get? i =
        some { l.get ⟨i, hi⟩ with reranked_score := some (
          (l.get ⟨i, hi⟩).score +
          (if (l.get ⟨i, hi⟩).doc_id ∉ seen ∧
              ∀ c0 ∈ l.take i, c0.doc_id ≠ (l.get ⟨i, hi⟩).doc_id
           then (1 : ℚ)/10 else 0) +
          (if headingMatch query (l.get ⟨i, hi⟩).heading_path then (1 : ℚ)/20 else 0)) }
  | [], _, i, hi => absurd hi (by simp)
  | c :: rest, seen, 0, hi => by
      simp only [rerankLoop, List.get?_cons_zero, List.get, List.take_zero]
      have hmem : (seen.contains c.doc_id = true) ↔ c.doc_id ∈ seen :=
        List.elem_iff
      by_cases hn : c.doc_id ∈ seen
      · have : seen.contains c.doc_id = true := hmem.mpr hn
        by_cases hh : headingMatch query c.heading_path <;>
          simp [this, hn, hh]
      · have : seen.contains c.doc_id = false := by
          rw [Bool.eq_false_iff]; intro hc; exact hn (hmem.mp hc)
        by_cases hh : headingMatch query c.heading_path <;>
          simp [this, hn, hh]
  | c :: rest, seen, i + 1, hi => by
      have hi' : i < rest.length := Nat.lt_of_succ_lt_succ (by simpa using hi)
      simp only [rerankLoop, List.get?_cons_succ]
      rw [rerankLoop_get?_general query rest _ i hi']
      have hget : (c :: rest).get ⟨i + 1, hi⟩ = rest.get ⟨i, hi'⟩ := rfl
      rw [hget]
      have htake : (c :: rest).take (i + 1) = c :: rest.take i := rfl
      rw [htake]
      have hmem : (seen.contains c.doc_id = true) ↔ c.doc_id ∈ seen :=
        List.elem_iff
      have hcond :
          ((rest.get ⟨i, hi'⟩).doc_id ∉
              (if !(seen.contains c.doc_id) then c.doc_id :: seen else seen) ∧
            ∀ c0 ∈ rest.take i, c0.doc_id ≠ (rest.get ⟨i, hi'⟩).doc_id) ↔
          ((rest.get ⟨i, hi'⟩).doc_id ∉ seen ∧
            ∀ c0 ∈ c :: rest.take i, c0.doc_id ≠ (rest.get ⟨i, hi'⟩).doc_id) := by
        by_cases hc : seen.contains c.doc_id
        · have hcm : c.doc_id ∈ seen := hmem.mp hc
          rw [hc]
          simp only [Bool.not_true, if_neg (by simp : ¬ (false = true)),
            List.forall_mem_cons]
          constructor
          · rintro ⟨h1, h2⟩
            exact ⟨h1, ⟨fun he => h1 (he ▸ hcm), h2⟩⟩
          · rintro ⟨h1, _, h3⟩
            exact ⟨h1, h3⟩
        · have hc' : seen.contains c.doc_id = false := by
            rw [Bool.eq_false_iff]; exact hc
          rw [hc']
          simp only [Bool.not_false, if_pos rfl, List.forall_mem_cons]
          constructor
          · rintro ⟨h1, h2⟩
            have hne : (rest.get ⟨i, hi'⟩).doc_id ≠ c.doc_id :=
              fun he => h1 (by rw [he]; exact List.mem_cons_self ..)
            have hns : (rest.get ⟨i, hi'⟩).doc_id ∉ seen :=
              fun he => h1 (List.mem_cons_of_mem _ he)
            exact ⟨hns, ⟨fun he => hne he.symm, h2⟩⟩
          · rintro ⟨h1, h2, h3⟩
            refine ⟨?_, h3⟩
            intro he
            rcases List.mem_cons.mp he with he | he
            · exact h2 he.symm
            · exact h1 he
      rw [if_congr hcond rfl rfl]

/-- Shape of rerank-pass outputs: each element is an input candidate with
only `reranked_score` filled in. -/
theorem rerankLoop_mem_shape (query : String) :
    ∀ (l : List Candidate) (seen : List String) (c : Candidate),
      c ∈ rerankLoop query l seen →
        ∃ c0 ∈ l, ∃ r : ℚ, c = { c0 with reranked_score := some r }
  | [], _, c, h => absurd h (by simp [rerankLoop])
  | c0 :: rest, seen, c, h => by
      simp only [rerankLoop, List.mem_cons] at h
      rcases h with rfl | h
      · exact ⟨c0, List.mem_cons_self .., _, rfl⟩
      · rcases rerankLoop_mem_shape query rest _ c h with ⟨c1, hc1, r, hr⟩
        exact ⟨c1, List.mem_cons_of_mem _ hc1, r, hr⟩

theorem rerank_candidates_mem_shape (l : List Candidate) (query : String)
    (k : Nat) (c : Candidate) (h : c ∈ rerank_candidates l query k) :
    ∃ c0 ∈ l, ∃ r : ℚ, c = { c0 with reranked_score := some r } := by
  unfold rerank_candidates at h
  by_cases hl : l = []
  · rw [if_pos hl, hl] at h
    exact absurd h (by simp)
  · rw [if_neg hl] at h
    exact rerankLoop_mem_shape query l [] c (mem_sortDesc.mp h)

/-! ### Lemmas about the vector-candidate builder -/

theorem buildCandidates_mem (metas : List Meta) (t : ℚ) :
    ∀ (raw : List (ℚ × Int)) (c : Candidate), c ∈ buildCandidates metas t raw →
      t ≤ c.score ∧ c.search_type = none ∧ c.reranked_score = none
  | [], c, h => absurd h (by simp [buildCandidates])
  | (s, i) :: rest, c, h => by
      rw [buildCandidates] at h
      by_cases h1 : i = -1
      · rw [if_pos h1] at h
        exact buildCandidates_mem metas t rest c h
      · rw [if_neg h1] at h
        by_cases h2 : i < (metas.length : Int)
        · rw [if_pos h2] at h
          by_cases h3 : t ≤ s
          · rw [if_pos h3] at h
            rcases List.mem_cons.mp h with rfl | h
            · exact ⟨h3, rfl, rfl⟩
            · exact buildCandidates_mem metas t rest c h
          · rw [if_neg h3] at h
            exact buildCandidates_mem metas t rest c h
        · rw [if_neg h2] at h
          exact buildCandidates_mem metas t rest c h

/-! ### Lemmas about the fusion loops -/

theorem fuseVecLoop_invariant :
    ∀ (vec : List Candidate) (seen : List String) (fused : List Candidate),
      (∀ c ∈ fused, c.chunk_id ∈ seen) →
      (fused.map Candidate.chunk_id).Nodup →
      (∀ c ∈ (fuseVecLoop vec seen fused).2, c.chunk_id ∈ (fuseVecLoop vec seen fused).1) ∧
        ((fuseVecLoop vec seen fused).2.map Candidate.chunk_id).Nodup
  | [], seen, fused, hsub, hnd => ⟨hsub, hnd⟩
  | c :: rest, seen, fused, hsub, hnd => by
      rw [fuseVecLoop]
      by_cases hc : seen.contains c.chunk_id
      · rw [if_pos hc]
        exact fuseVecLoop_invariant rest seen fused hsub hnd
      · rw [if_neg hc]
        have hnotin : c.chunk_id ∉ seen := fun hm => hc (List.elem_iff.mpr hm)
        refine fuseVecLoop_invariant rest _ _ ?_ ?_
        · intro x hx
          rcases List.mem_append.mp hx with hx | hx
          · exact List.mem_cons_of_mem _ (hsub x hx)
          · rcases List.mem_singleton.mp hx with rfl
            exact List.mem_cons_self ..
        · rw [List.map_append]
          refine List.Nodup.append hnd (by simp) ?_
          intro a ha hb
          rcases List.mem_map.mp ha with ⟨x, hx, hxa⟩
          have hs : a ∈ seen := hxa ▸ hsub x hx
          have he : a = c.chunk_id := by simpa using hb
          exact hnotin (he ▸ hs)

theorem fuseLexLoop_nodup :
    ∀ (lex : List Candidate) (final_k : Nat) (seen : List String) (fused : List Candidate),
      (∀ c ∈ fused, c.chunk_id ∈ seen) →
      (fused.map Candidate.chunk_id).Nodup →
      ((fuseLexLoop final_k lex seen fused).map Candidate.chunk_id).Nodup
  | [], _, _, fused, _, hnd => hnd
  | c :: rest, final_k, seen, fused, hsub, hnd => by
      rw [fuseLexLoop]
      by_cases hc : seen.contains c.chunk_id
      · rw [if_pos hc]
        exact fuseLexLoop_nodup rest final_k seen fused hsub hnd
      · rw [if_neg hc]
        have hnotin : c.chunk_id ∉ seen := fun hm => hc (List.elem_iff.mpr hm)
        have hnd' : ((fused ++ [{ c with search_type := some "lexical" }]).map
            Candidate.chunk_id).Nodup := by
          rw [List.map_append]
          refine List.Nodup.append hnd (by simp) ?_
          intro a ha hb
          rcases List.mem_map.mp ha with ⟨x, hx, hxa⟩
          have hs : a ∈ seen := hxa ▸ hsub x hx
          have he : a = c.chunk_id := by simpa using hb
          exact hnotin (he ▸ hs)
        by_cases hk : final_k * 2 ≤ (fused ++ [{ c with search_type := some "lexical" }]).length
        · simp only [if_pos hk]
          exact hnd'
        · simp only [if_neg hk]
          refine fuseLexLoop_nodup rest final_k _ _ ?_ hnd'
          intro x hx
          rcases List.mem_append.mp hx with hx | hx
          · exact List.mem_cons_of_mem _ (hsub x hx)
          · rcases List.mem_singleton.mp hx with rfl
            exact List.mem_cons_self ..

/-- The fused list of `hybrid` has pairwise-distinct chunk ids. -/
theorem fuse_nodup (vec lex : List Candidate) (final_k : Nat) :
    ((fuse vec lex final_k).map Candidate.chunk_id).Nodup := by
  unfold fuse
  have h := fuseVecLoop_invariant vec [] [] (by simp) (by simp)
  exact fuseLexLoop_nodup lex final_k _ _ h.1 h.2

theorem fuseVecLoop_mem :
    ∀ (vec : List Candidate) (seen : List String) (fused : List Candidate)
      (c : Candidate), c ∈ (fuseVecLoop vec seen fused).2 →
      c ∈ fused ∨ ∃ c0 ∈ vec, c = { c0 with search_type := some "semantic" }
  | [], _, fused, c, h => .inl h
  | c0 :: rest, seen, fused, c, h => by
      rw [fuseVecLoop] at h
      by_cases hc : seen.contains c0.chunk_id
      · rw [if_pos hc] at h
        rcases fuseVecLoop_mem rest seen fused c h with h | ⟨c1, hc1, he⟩
        · exact .inl h
        · exact .inr ⟨c1, List.mem_cons_of_mem _ hc1, he⟩
      · rw [if_neg hc] at h
        rcases fuseVecLoop_mem rest _ _ c h with h | ⟨c1, hc1, he⟩
        · rcases List.mem_append.mp h with h | h
          · exact .inl h
          · rcases List.mem_singleton.mp h with rfl
            exact .inr ⟨c0, List.mem_cons_self .., rfl⟩
        · exact .inr ⟨c1, List.mem_cons_of_mem _ hc1, he⟩

theorem fuseLexLoop_mem :
    ∀ (lex : List Candidate) (final_k : Nat) (seen : List String)
      (fused : List Candidate) (c : Candidate), c ∈ fuseLexLoop final_k lex seen fused →
      c ∈ fused ∨ ∃ c0 ∈ lex, c = { c0 with search_type := some "lexical" }
  | [], _, _, fused, c, h => .inl h
  | c0 :: rest, final_k, seen, fused, c, h => by
      rw [fuseLexLoop] at h
      by_cases hc : seen.contains c0.chunk_id
      · rw [if_pos hc] at h
        rcases fuseLexLoop_mem rest final_k seen fused c h with h | ⟨c1, hc1, he⟩
        · exact .inl h
        · exact .inr ⟨c1, List.mem_cons_of_mem _ hc1, he⟩
      · rw [if_neg hc] at h
        have hsplit : c ∈ fused ++ [{ c0 with search_type := some "lexical" }] →
            c ∈ fused ∨ ∃ c1 ∈ c0 :: rest, c = { c1 with search_type := some "lexical" } := by
          intro hm
          rcases List.mem_append.mp hm with hm | hm
          · exact .inl hm
          · rcases List.mem_singleton.mp hm with rfl
            exact .inr ⟨c0, List.mem_cons_self .., rfl⟩
        by_cases hk : final_k * 2 ≤ (fused ++ [{ c0 with search_type := some "lexical" }]).length
        · rw [if_pos hk] at h
          exact hsplit h
        · rw [if_neg hk] at h
          rcases fuseLexLoop_mem rest final_k _ _ c h with h | ⟨c1, hc1, he⟩
          · exact hsplit h
          · exact .inr ⟨c1, List.mem_cons_of_mem _ hc1, he⟩

/-- Provenance of fused candidates: semantic tag from `vec`, lexical from `lex`. -/
theorem fuse_mem (vec lex : List Candidate) (final_k : Nat) (c : Candidate)
    (h : c ∈ fuse vec lex final_k) :
    (∃ c0 ∈ vec, c = { c0 with search_type := some "semantic" }) ∨
      (∃ c0 ∈ lex, c = { c0 with search_type := some "lexical" }) := by
  unfold fuse at h
  rcases fuseLexLoop_mem lex final_k _ _ c h with h | h
  · rcases fuseVecLoop_mem vec [] [] c h with h | h
    · exact absurd h (by simp)
    · exact .inl h
  · exact .inr h

/-! ### Emptiness and prefix lemmas for fusion -/

theorem fuseVecLoop_prefix :
    ∀ (vec : List Candidate) (seen : List String) (fused : List Candidate),
      ∃ extra, (fuseVecLoop vec seen fused).2 = fused ++ extra
  | [], _, fused => ⟨[], by simp [fuseVecLoop]⟩
  | c :: rest, seen, fused => by
      rw [fuseVecLoop]
      by_cases hc : seen.contains c.chunk_id
      · rw [if_pos hc]
        exact fuseVecLoop_prefix rest seen fused
      · rw [if_neg hc]
        rcases fuseVecLoop_prefix rest (c.chunk_id :: seen)
            (fused ++ [{ c with search_type := some "semantic" }]) with ⟨e, he⟩
        exact ⟨[{ c with search_type := some "semantic" }] ++ e,
          by rw [he, List.append_assoc]⟩

theorem fuseLexLoop_prefix :
    ∀ (lex : List Candidate) (final_k : Nat) (seen : List String)
      (fused : List Candidate),
      ∃ extra, fuseLexLoop final_k lex seen fused = fused ++ extra
  | [], _, _, fused => ⟨[], by simp [fuseLexLoop]⟩
  | c :: rest, final_k, seen, fused => by
      rw [fuseLexLoop]
      by_cases hc : seen.contains c.chunk_id
      · rw [if_pos hc]
        exact fuseLexLoop_prefix rest final_k seen fused
      · rw [if_neg hc]
        by_cases hk : final_k * 2 ≤
            (fused ++ [{ c with search_type := some "lexical" }]).length
      
        · rw [if_pos hk]
          exact ⟨[{ c with search_type := some "lexical" }], rfl⟩
        · rw [if_neg hk]
          rcases fuseLexLoop_prefix rest final_k (c.chunk_id :: seen)
              (fused ++ [{ c with search_type := some "lexical" }]) with ⟨e, he⟩
          exact ⟨[{ c with search_type := some "lexical" }] ++ e,
            by rw [he, List.append_assoc]⟩

/-- The fused list is empty exactly when both candidate sources are empty. -/
theorem fuse_eq_nil_iff (vec lex : List Candidate) (final_k : Nat) :
    fuse vec lex final_k = [] ↔ vec = [] ∧ lex = [] := by
  constructor
  · intro h
    cases vec with
    | cons c rest =>
        exfalso
        unfold fuse at h
        rw [fuseVecLoop] at h
        rw [if_neg (by simp : ¬ (([] : List String).contains c.chunk_id = true))] at h
        rcases fuseVecLoop_prefix rest (c.chunk_id :: [])
            ([] ++ [{ c with search_type := some "semantic" }]) with ⟨e, he⟩
        rcases fuseLexLoop_prefix lex final_k
            (fuseVecLoop rest (c.chunk_id :: []) ([] ++ [{ c with search_type := some "semantic" }])).1
            (fuseVecLoop rest (c.chunk_id :: []) ([] ++ [{ c with search_type := some "semantic" }])).2
            with ⟨e2, he2⟩
        rw [he2, he] at h
        simp at h
    | nil =>
        refine ⟨rfl, ?_⟩
        cases lex with
        | nil => rfl
        | cons c rest =>
            exfalso
            unfold fuse at h
            rw [fuseVecLoop] at h
            rw [fuseLexLoop] at h
            rw [if_neg (by simp : ¬ (([] : List String).contains c.chunk_id = true))] at h
            by_cases hk : final_k * 2 ≤
                (([] : List Candidate) ++ [{ c with search_type := some "lexical" }]).length
            · rw [if_pos hk] at h
              simp at h
            · rw [if_neg hk] at h
              rcases fuseLexLoop_prefix rest final_k (c.chunk_id :: [])
                  ([] ++ [{ c with search_type := some "lexical" }]) with ⟨e, he⟩
              rw [he] at h
              simp at h
  · rintro ⟨rfl, rfl⟩
    rfl

/-! ### Bridge lemmas: destructuring `hybrid` and `search_vectors` -/

theorem hybrid_eq_of_vec (st : HybridRetriever) (query : String)
    (k_vec k_lex final_k : Nat) (t : ℚ) (vec : List Candidate)
    (h : st.search_vectors query k_vec t = .ok vec) :
    st.hybrid query k_vec k_lex final_k t =
      .ok (hybridTail st.db vec (st.search_lexical query k_lex) final_k) := by
  unfold HybridRetriever.hybrid
  rw [h]
  rfl

theorem hybrid_ok_elim (st : HybridRetriever) (query : String)
    (k_vec k_lex final_k : Nat) (t : ℚ) (out : List Candidate)
    (h : st.hybrid query k_vec k_lex final_k t = .ok out) :
    ∃ vec, st.search_vectors query k_vec t = .ok vec ∧
      out = hybridTail st.db vec (st.search_lexical query k_lex) final_k := by
  cases hv : st.search_vectors query k_vec t with
  | error e =>
      unfold HybridRetriever.hybrid at h
      rw [hv] at h
      exact absurd h (by simp [Bind.bind, Except.bind])
  | ok vec =>
      rw [hybrid_eq_of_vec st query k_vec k_lex final_k t vec hv] at h
      refine ⟨vec, rfl, ?_⟩
      injection h with h
      exact h.symm

theorem search_vectors_ok_cases (st : HybridRetriever) (query : String)
    (k : Nat) (t : ℚ) (cands : List Candidate)
    (h : st.search_vectors query k t = .ok cands) :
    cands = [] ∨ ∃ raw,
      cands = (rerank_candidates (buildCandidates st.metas t raw) query k).take k := by
  unfold HybridRetriever.search_vectors at h
  by_cases h1 : st.embedding_client.isNone && st.local_embedder.isNone
  · rw [if_pos h1] at h
    injection h with h
    exact .inl h.symm
  · rw [if_neg h1] at h
    by_cases h2 : dimGuard st
    · rw [if_pos h2] at h
      injection h with h
      exact .inl h.symm
    · rw [if_neg h2] at h
      simp only [Bind.bind, Except.bind] at h
      split at h
      · exact absurd h (by simp)
      · split at h
        · injection h with h
          exact .inl h.symm
        · split at h
          · injection h with h
            exact .inl h.symm
          · split at h
            · exact absurd h (by simp)
            · injection h with h
              exact .inr ⟨_, h.symm⟩

/-! ### Field-preservation lemmas -/

theorem scoreCand_fields (c : Candidate) :
    (scoreCand c).score = c.score ∧ (scoreCand c).chunk_id = c.chunk_id ∧
      (scoreCand c).search_type = c.search_type ∧
      (scoreCand c).reranked_score = c.reranked_score :=
  ⟨rfl, rfl, rfl, rfl⟩

theorem fuseScoreRank_mem (vec lex : List Candidate) (final_k : Nat)
    (c : Candidate) (h : c ∈ fuseScoreRank vec lex final_k) :
    ∃ c0 ∈ fuse vec lex final_k, c = scoreCand c0 := by
  unfold fuseScoreRank at h
  rcases List.mem_map.mp (mem_sortDesc.mp h) with ⟨c0, hc0, he⟩
  exact ⟨c0, hc0, he.symm⟩

theorem hydrateTexts_mem (texts : List (String × String)) (l : List Candidate)
    (c : Candidate) (h : c ∈ hydrateTexts texts l) :
    ∃ c0 ∈ l, c = { c0 with text := lookupD texts c0.chunk_id "" } := by
  unfold hydrateTexts at h
  rcases List.mem_map.mp h with ⟨c0, hc0, he⟩
  exact ⟨c0, hc0, he.symm⟩

theorem hybridTail_mem (db : Db) (vec lex : List Candidate) (final_k : Nat)
    (c : Candidate) (h : c ∈ hybridTail db vec lex final_k) :
    ∃ c0 ∈ fuseScoreRank vec lex final_k,
      c.score = c0.score ∧ c.chunk_id = c0.chunk_id ∧
        c.search_type = c0.search_type ∧ c.combined_score = c0.combined_score := by
  unfold hybridTail at h
  rcases hydrateTexts_mem _ _ c (List.mem_of_mem_take h) with ⟨c0, hc0, rfl⟩
  exact ⟨c0, hc0, ⟨rfl, rfl, rfl, rfl⟩⟩

/-! ### Chunk-id preservation through scoring, sorting, hydration -/

theorem hydrateTexts_ids (texts : List (String × String)) (l : List Candidate) :
    (hydrateTexts texts l).map Candidate.chunk_id = l.map Candidate.chunk_id := by
  unfold hydrateTexts
  rw [List.map_map]
  exact List.map_congr_left (fun c _ => rfl)

theorem fuseScoreRank_ids_nodup (vec lex : List Candidate) (final_k : Nat) :
    ((fuseScoreRank vec lex final_k).map Candidate.chunk_id).Nodup := by
  have hfuse := fuse_nodup vec lex final_k
  have hcomp : (fuse vec lex final_k).map (Candidate.chunk_id ∘ scoreCand) =
      (fuse vec lex final_k).map Candidate.chunk_id :=
    List.map_congr_left (fun c _ => rfl)
  have hscore : (((fuse vec lex final_k).map scoreCand).map Candidate.chunk_id).Nodup := by
    rw [List.map_map, hcomp]
    exact hfuse
  have hperm :=
    (sortDesc_perm combinedKey ((fuse vec lex final_k).map scoreCand)).map
      Candidate.chunk_id
  exact hperm.nodup_iff.mpr hscore

theorem hybridTail_ids_nodup (db : Db) (vec lex : List Candidate) (final_k : Nat) :
    ((hybridTail db vec lex final_k).map Candidate.chunk_id).Nodup := by
  unfold hybridTail
  rw [List.map_take, hydrateTexts_ids]
  exact (List.take_sublist _ _).nodup (fuseScoreRank_ids_nodup vec lex final_k)

theorem hybridTail_length_le (db : Db) (vec lex : List Candidate) (final_k : Nat) :
    (hybridTail db vec lex final_k).length ≤ final_k := by
  unfold hybridTail
  exact List.length_take_le ..

/-! ### Threshold propagation -/

theorem search_vectors_threshold (st : HybridRetriever) (query : String)
    (k : Nat) (t : ℚ) (cands : List Candidate)
    (h : st.search_vectors query k t = .ok cands) :
    ∀ c ∈ cands, t ≤ c.score := by
  intro c hc
  rcases search_vectors_ok_cases st query k t cands h with rfl | ⟨raw, rfl⟩
  · exact absurd hc (by simp)
  · have hc' := List.mem_of_mem_take hc
    rcases rerank_candidates_mem_shape _ query k c hc' with ⟨c0, hc0, r, rfl⟩
    exact (buildCandidates_mem st.metas t raw c0 hc0).1

theorem hybrid_semantic_threshold (st : HybridRetriever) (query : String)
    (k_vec k_lex final_k : Nat) (t : ℚ) (out : List Candidate)
    (h : st.hybrid query k_vec k_lex final_k t = .ok out) :
    ∀ c ∈ out, c.search_type = some "semantic" → t ≤ c.score := by
  intro c hc hsem
  rcases hybrid_ok_elim st query k_vec k_lex final_k t out h with ⟨vec, hv, rfl⟩
  rcases hybridTail_mem _ _ _ _ c hc with ⟨c0, hc0, hsc, _, hst, _⟩
  rcases fuseScoreRank_mem _ _ _ c0 hc0 with ⟨c1, hc1, rfl⟩
  have hst1 : c1.search_type = some "semantic" := by
    rw [hst] at hsem
    exact (scoreCand_fields c1).2.2.1 ▸ hsem
  rcases fuse_mem vec _ _ c1 hc1 with ⟨c2, hc2, rfl⟩ | ⟨c2, hc2, rfl⟩
  · have : c.score = c2.score := by
      rw [hsc]
      exact (scoreCand_fields _).1
    rw [this]
    exact search_vectors_threshold st query k_vec t vec hv c2 hc2
  · exact absurd hst1 (by simp)

/-! ### Concrete environments for witnesses and counterexamples -/

/-- A database whose FTS engine returns one row (rowid 2) and whose
`fts_chunks` table holds content for rowids 1 and 2. -/
def dbLex : Db :=
  { ftsFn := fun _ _ => .ok [{ rowid := 2, content := "hello", fuente := some "docB" }],
    contentOf := fun i => if i = 1 then some "texto uno"
      else if i = 2 then some "hello" else none }

/-- A database whose FTS engine always fails (e.g. FTS5 syntax error). -/
def dbFts : Db :=
  { ftsFn := fun _ _ => .error .valueError,
    contentOf := fun _ => none }

/-- A 3-dimensional one-vector index whose native search returns one hit
with similarity 4/5 for vector id 0. -/
def idx1 : FaissIndex :=
  { d := 3, ntotal := 1, searchFn := fun _ _ => [(4/5, 0)] }

/-- A 3-dimensional local embedding backend that always succeeds. -/
def localE3 : LocalEmbedder :=
  { dimension := 3, encode_query := fun _ => .ok [1, 0, 0] }

/-- Local-embeddings setup over `idx1` with one metadata record. -/
def stBase : HybridRetriever :=
  { embedding_client := none, local_embedder := some localE3,
    index := some idx1,
    metas := [{ chunk_id := "1", doc_id := "docA", heading_path := "Heading" }],
    db := dbLex }

/-- Like `stBase` but the indexed chunk id is not a decimal integer. -/
def stBad : HybridRetriever :=
  { embedding_client := none, local_embedder := some localE3,
    index := some idx1,
    metas := [{ chunk_id := "abc", doc_id := "docA", heading_path := "Heading" }],
    db := dbLex }

/-- A remote client whose embedding calls always fail. -/
def stApiFail : HybridRetriever :=
  { embedding_client := some
      { create := fun _ => .error .apiError, createBatch := fun _ => .error .apiError },
    local_embedder := none, index := some idx1,
    metas := [{ chunk_id := "1", doc_id := "docA", heading_path := "Heading" }],
    db := dbLex }

/-- A remote client that embeds into dimension 2 against the 3-dim `idx1`. -/
def stDimRemote : HybridRetriever :=
  { embedding_client := some
      { create := fun _ => .ok [1, 0], createBatch := fun _ => .ok [[1, 0]] },
    local_embedder := none, index := some idx1,
    metas := [{ chunk_id := "1", doc_id := "docA", heading_path := "Heading" }],
    db := dbLex }

/-- A local backend of dimension 5 against the 3-dim `idx1`. -/
def stDimLocal : HybridRetriever :=
  { embedding_client := none,
    local_embedder := some { dimension := 5, encode_query := fun _ => .ok [1, 0, 0, 0, 0] },
    index := some idx1,
    metas := [{ chunk_id := "1", doc_id := "docA", heading_path := "Heading" }],
    db := dbLex }

/-- The retriever state obtained after loading `idx1` with a missing
`metas.jsonl` (metadata degraded to the empty list). -/
def stC7 : HybridRetriever :=
  { embedding_client := none, local_embedder := some localE3,
    index := some idx1, metas := [], db := dbLex }

/-- Remote-client state over an initially empty 3-dim index, whose batched
embedding call fails exactly on the batch `["t1"]` and succeeds otherwise. -/
def stC3 : HybridRetriever :=
  { embedding_client := some
      { create := fun _ => .ok [1, 0, 0],
        createBatch := fun b => if b = ["t1"] then .error .apiError else .ok [[1, 0, 0]] },
    local_embedder := none,
    index := some { d := 3, ntotal := 0, searchFn := fun _ _ => [] },
    metas := [], db := dbLex }

/-! ### Named concrete candidates (outputs of the runs above) -/

def vecCand : Candidate :=
  { score := 4/5, chunk_id := "1", doc_id := "docA", heading_path := "Heading",
    reranked_score := some (9/10) }

def lexCand : Candidate :=
  { score := 0, chunk_id := "2", doc_id := "docB", text := "hello" }

def cSemOut : Candidate :=
  { score := 4/5, chunk_id := "1", doc_id := "docA", heading_path := "Heading",
    text := "texto uno", reranked_score := some (9/10),
    search_type := some "semantic", combined_score := some (9/10) }

def cLexOut : Candidate :=
  { score := 0, chunk_id := "2", doc_id := "docB", text := "hello",
    search_type := some "lexical", combined_score := some 0 }

def cSemScored : Candidate :=
  { score := 4/5, chunk_id := "1", doc_id := "docA", heading_path := "Heading",
    reranked_score := some (9/10), search_type := some "semantic",
    combined_score := some (9/10) }

/-- No embedding backend at all, failing FTS engine. -/
def stNoProv : HybridRetriever :=
  { embedding_client := none, local_embedder := none, index := some idx1,
    metas := [{ chunk_id := "1", doc_id := "docA", heading_path := "Heading" }],
    db := dbFts }

/-! ### Claims -/

/-- C1 (counterexample).  The claim states that `combined_score` equals
`reranked_score` when present (else `score`) AND that semantic candidates
get +0.1 on top.  In the code (retrieve.py:244-253) a truthy
`reranked_score` REPLACES the base score after the semantic bonus was
added, so a semantic candidate with `reranked_score = 9/10` ends with
`combined_score = 9/10`, not `9/10 + 1/10`: the claim is false on this run. -/
theorem C1_composite_scoring_counterexample :
    stBase.hybrid "q" 12 12 6 (7/10) = .ok [cSemOut, cLexOut] ∧
      cSemOut.search_type = some "semantic" ∧
      cSemOut.reranked_score = some (9/10) ∧
      cSemOut.combined_score = some (9/10) ∧
      (9 : ℚ)/10 ≠ 9/10 + 1/10 := by
  refine ⟨by with_unfolding_all decide, rfl, rfl, rfl, by norm_num⟩

/-- C1 (amended).  Composite scoring in hybrid fusion: for every candidate
of the scored-and-sorted fused list, `combined_score` equals
`reranked_score` when it is present and nonzero (Python truthiness);
otherwise it equals `score` plus 0.1 if the candidate is semantic (the
semantic bonus is overwritten, not added, whenever a truthy
`reranked_score` exists).  The list is sorted descending by
`combined_score`, ties broken by original relative order (stable sort,
expressed by the filter characterisation against the pre-sort list). -/
theorem C1_composite_scoring (vec lex : List Candidate) (final_k : Nat) :
    (∀ c ∈ fuseScoreRank vec lex final_k,
        c.combined_score = some (
          match c.reranked_score with
          | some r => if r = 0
              then c.score + (if c.search_type = some "semantic" then (1 : ℚ)/10 else 0)
              else r
          | none => c.score + (if c.search_type = some "semantic" then (1 : ℚ)/10 else 0))) ∧
      List.Pairwise (fun a b => combinedKey b ≤ combinedKey a)
        (fuseScoreRank vec lex final_k) ∧
      (∀ q : ℚ,
        (fuseScoreRank vec lex final_k).filter (fun c => decide (combinedKey c = q)) =
          ((fuse vec lex final_k).map scoreCand).filter
            (fun c => decide (combinedKey c = q))) := by
  refine ⟨?_, pairwise_sortDesc .., fun q => filter_key_sortDesc ..⟩
  intro c hc
  rcases fuseScoreRank_mem _ _ _ c hc with ⟨c0, _, rfl⟩
  show (scoreCand c0).combined_score = _
  by_cases hsem : c0.search_type = some "semantic" <;>
    rcases hrr : c0.reranked_score with _ | r
  · simp [scoreCand, hsem, hrr]
  · by_cases hr : r = 0 <;> simp [scoreCand, hsem, hrr, hr]
  · simp [scoreCand, hsem, hrr]
  · by_cases hr : r = 0 <;> simp [scoreCand, hsem, hrr, hr]

/-- C1 (witness for the amended theorem): on the concrete one-semantic /
one-lexical run, the scored semantic candidate carries
`combined_score = reranked_score = 9/10` and the list is descending. -/
theorem C1_composite_scoring_witness :
    cSemScored.combined_score = some (
      match cSemScored.reranked_score with
      | some r => if r = 0
          then cSemScored.score +
            (if cSemScored.search_type = some "semantic" then (1 : ℚ)/10 else 0)
          else r
      | none => cSemScored.score +
          (if cSemScored.search_type = some "semantic" then (1 : ℚ)/10 else 0)) ∧
    List.Pairwise (fun a b => combinedKey b ≤ combinedKey a)
      (fuseScoreRank [vecCand] [lexCand] 6) :=
  ⟨(C1_composite_scoring [vecCand] [lexCand] 6).1 cSemScored
      (by with_unfolding_all decide),
    (C1_composite_scoring [vecCand] [lexCand] 6).2.1⟩

/-! ### C2 support -/

theorem hybridTail_eq_nil_iff (db : Db) (vec lex : List Candidate)
    (final_k : Nat) (hfk : 1 ≤ final_k) :
    (hybridTail db vec lex final_k = [] ↔ vec = [] ∧ lex = []) := by
  unfold hybridTail
  rw [← fuse_eq_nil_iff vec lex final_k]
  constructor
  · intro h
    rcases List.take_eq_nil_iff.mp h with h | h
    · omega
    · unfold hydrateTexts at h
      have h' := List.map_eq_nil_iff.mp h
      have hlen := length_sortDesc combinedKey ((fuse vec lex final_k).map scoreCand)
      unfold fuseScoreRank at h'
      rw [h'] at hlen
      simp only [List.length_nil] at hlen
      have := List.map_eq_nil_iff.mp (List.eq_nil_of_length_eq_zero hlen.symm)
      exact this
  · intro h
    unfold fuseScoreRank
    rw [h]
    rw [show sortDesc combinedKey (List.map scoreCand ([] : List Candidate)) = []
      from rfl]
    simp [hydrateTexts]

/-- C2 (counterexample).  The claim says `hybrid` never raises when a
single embedding call fails.  But `embed` (retrieve.py:87-101) has no
try/except around the remote `embeddings.create` call, `search_vectors`
calls it unguarded (line 123), and `hybrid` calls `search_vectors`
unguarded (line 216): the API exception reaches the caller of `hybrid`. -/
theorem C2_no_throw_counterexample :
    stApiFail.hybrid "q" 12 12 6 (7/10) = .error .apiError := by
  with_unfolding_all decide

/-- C2 (amended).  `hybrid` does not raise when the embedding provider is
missing entirely (the semantic source degrades to `[]`), failures inside
the lexical FTS engine are swallowed by `fts_search` (lexical source
degrades to `[]`), and whenever the vector-search stage returns without
raising, `hybrid` returns a result which is empty iff both candidate
sources are empty (for `final_k ≥ 1`).  However — unlike the original
claim — an exception from a failing embedding call propagates to the
caller (see the counterexample). -/
theorem C2_no_throw (st : HybridRetriever) (query : String) :
    (∀ (k : Nat) (t : ℚ), st.embedding_client = none → st.local_embedder = none →
        st.search_vectors query k t = .ok []) ∧
      (∀ (lim : Nat) (e : PyErr), st.db.ftsFn (sanitizeQuery query) lim = .error e →
        st.search_lexical query lim = []) ∧
      (∀ (k_vec k_lex final_k : Nat) (t : ℚ) (vec : List Candidate),
        st.search_vectors query k_vec t = .ok vec →
        exceptIsOk (st.hybrid query k_vec k_lex final_k t) = true) ∧
      (∀ (k_vec k_lex final_k : Nat) (t : ℚ) (vec out : List Candidate),
        st.search_vectors query k_vec t = .ok vec → 1 ≤ final_k →
        st.hybrid query k_vec k_lex final_k t = .ok out →
        (out = [] ↔ vec = [] ∧ st.search_lexical query k_lex = [])) := by
  refine ⟨?_, ?_, ?_, ?_⟩
  · intro k t h1 h2
    unfold HybridRetriever.search_vectors
    rw [h1, h2]
    rfl
  · intro lim e h
    unfold HybridRetriever.search_lexical fts_search
    rw [h]
    rfl
  · intro k_vec k_lex final_k t vec hv
    rw [hybrid_eq_of_vec st query k_vec k_lex final_k t vec hv]
    rfl
  · intro k_vec k_lex final_k t vec out hv hfk hout
    rw [hybrid_eq_of_vec st query k_vec k_lex final_k t vec hv] at hout
    injection hout with hout
    rw [← hout]
    exact hybridTail_eq_nil_iff st.db vec (st.search_lexical query k_lex) final_k hfk

/-- C2 (witness): the no-provider state degrades the semantic source to
`[]`, a failing FTS engine degrades the lexical source to `[]`, and on the
concrete successful run `hybrid` returns without error a nonempty result
from nonempty sources. -/
theorem C2_no_throw_witness :
    stNoProv.search_vectors "q" 12 (7/10) = .ok [] ∧
      stNoProv.search_lexical "q" 12 = [] ∧
      exceptIsOk (stBase.hybrid "q" 12 12 6 (7/10)) = true ∧
      ([cSemOut, cLexOut] = ([] : List Candidate) ↔
        [vecCand] = ([] : List Candidate) ∧ stBase.search_lexical "q" 12 = []) :=
  ⟨(C2_no_throw stNoProv "q").1 12 (7/10) rfl rfl,
    (C2_no_throw stNoProv "q").2.1 12 .valueError (by with_unfolding_all decide),
    (C2_no_throw stBase "q").2.2.1 12 12 6 (7/10) [vecCand]
      (by with_unfolding_all decide),
    (C2_no_throw stBase "q").2.2.2 12 12 6 (7/10) [vecCand] [cSemOut, cLexOut]
      (by with_unfolding_all decide) (by norm_num)
      (by with_unfolding_all decide)⟩

/-- C3 (code bug).  Positional alignment after `add_to_index`
(retrieve.py:263-304): when the first of two single-text batches fails its
embedding call and the second succeeds, the index gains 1 vector while the
metadata list gains ALL 2 records (the metadata loop at lines 298-300 does
not know which batches were skipped), so `ntotal = 1 ≠ 2 = len(metas)` —
and `_save_index` persists the misaligned pair, so the misalignment also
survives reload.  This contradicts the alignment invariant the rest of the
code relies on (`metas[i]` for vector id `i`, line 138-139). -/
theorem C3_alignment_code_bug :
    (stC3.add_to_index ["t1", "t2"]
        [{ chunk_id := some "c1" }, { chunk_id := some "c2" }] 1 (fun _ => "u")).map
      (fun s => ((s.index.map FaissIndex.ntotal).getD 0, s.metas.length,
        (s.files.faissFile.map FaissIndex.ntotal).getD 0,
        (s.files.metasFile.map List.length).getD 0)) = .ok (1, 2, 1, 2) ∧
      (1 : Nat) ≠ 2 := by
  refine ⟨by with_unfolding_all decide, by norm_num⟩

/-- C4 (counterexample).  The dimension guard (retrieve.py:114-121) only
fires when the LOCAL embedder is active.  With a remote embedding client of
dimension 2 against the 3-dimensional index, `search_vectors` performs no
dimension check, invokes the native FAISS search with a mismatched query
vector, and the native failure propagates to the caller of
`search_vectors` and of `hybrid` — contradicting both "short-circuits to an
empty candidate list" and "no exception reaches the caller". -/
theorem C4_dimension_guard_counterexample :
    stDimRemote.search_vectors "q" 12 (7/10) = .error .native ∧
      stDimRemote.hybrid "q" 12 12 6 (7/10) = .error .native := by
  exact ⟨by with_unfolding_all decide, by with_unfolding_all decide⟩

/-- C4 (amended).  The dimension-mismatch guard holds only for the local
embedding backend: whenever `local_embedder` is set and the loaded index's
recorded dimension differs from the local backend's dimension,
`search_vectors` short-circuits to `.ok []` for every query — in
particular the native search kernel is never consulted (the result is
independent of `searchFn` and no exception reaches the caller).  With a
remote client no dimension check is performed (see the counterexample). -/
theorem C4_dimension_guard (st : HybridRetriever) (query : String) (k : Nat)
    (t : ℚ) (le : LocalEmbedder) (idx : FaissIndex)
    (h1 : st.local_embedder = some le) (h2 : st.index = some idx)
    (h3 : idx.d ≠ le.dimension) :
    st.search_vectors query k t = .ok [] := by
  unfold HybridRetriever.search_vectors
  have hg : dimGuard st = true := by
    unfold dimGuard
    rw [h1, h2]
    simpa using h3
  have hne : ¬(st.embedding_client.isNone && st.local_embedder.isNone) = true := by
    rw [h1]
    simp
  rw [if_neg hne, if_pos hg]

/-- C4 (witness): the 5-dimensional local backend against the 3-dimensional
`idx1` short-circuits to an empty candidate list. -/
theorem C4_dimension_guard_witness :
    stDimLocal.search_vectors "q" 12 (7/10) = .ok [] :=
  C4_dimension_guard stDimLocal "q" 12 (7/10)
    { dimension := 5, encode_query := fun _ => .ok [1, 0, 0, 0, 0] } idx1
    rfl rfl (by norm_num [idx1])

/-- C5 (confirmed).  Threshold edge policy: every candidate returned by
`search_vectors` has `score ≥ similarity_threshold` (below-threshold hits
are dropped by the filter at retrieve.py:140-142 BEFORE `_rerank_candidates`
runs), and every semantic-tagged candidate in the `hybrid` output satisfies
the same bound — so a below-threshold vector candidate never appears in the
hybrid output; if the lexical search surfaces the same chunk, that chunk
enters only as a `lexical`-tagged candidate, never as the discarded vector
candidate. -/
theorem C5_threshold_edge_policy :
    (∀ (st : HybridRetriever) (query : String) (k : Nat) (t : ℚ)
        (cands : List Candidate), st.search_vectors query k t = .ok cands →
        ∀ c ∈ cands, t ≤ c.score) ∧
      (∀ (st : HybridRetriever) (query : String) (k_vec k_lex final_k : Nat)
        (t : ℚ) (out : List Candidate),
        st.hybrid query k_vec k_lex final_k t = .ok out →
        ∀ c ∈ out, c.search_type = some "semantic" → t ≤ c.score) :=
  ⟨search_vectors_threshold, hybrid_semantic_threshold⟩

/-- C5 (witness): on the concrete run with threshold 7/10, the single
vector candidate scores 4/5 ≥ 7/10, and the semantic output candidate of
`hybrid` scores 4/5 ≥ 7/10. -/
theorem C5_threshold_edge_policy_witness :
    (7 : ℚ)/10 ≤ vecCand.score ∧ (7 : ℚ)/10 ≤ cSemOut.score :=
  ⟨C5_threshold_edge_policy.1 stBase "q" 12 (7/10) [vecCand]
      (by with_unfolding_all decide) vecCand (by simp),
    C5_threshold_edge_policy.2 stBase "q" 12 12 6 (7/10) [cSemOut, cLexOut]
      (by with_unfolding_all decide) cSemOut (by simp) rfl⟩

/-- C6 (confirmed).  Semantic rerank: the i-th output of the rerank scoring
pass equals the i-th input candidate with `reranked_score` set to its
similarity `score`, plus 0.1 if no earlier candidate in the list bears the
same `doc_id` (diversity bonus, once per distinct document), plus 0.05 if
any whitespace token of the lowercased query occurs as a substring of the
lowercased heading path.  (`_rerank_candidates` then sorts these scored
candidates; the input-order hypothesis of the claim is not needed: the
formula holds for every input order.) -/
theorem C6_rerank_formula (query : String) (cands : List Candidate) (i : Nat)
    (hi : i < cands.length) :
    (rerankLoop query cands []).get? i =
      some { cands.get ⟨i, hi⟩ with reranked_score := some (
        (cands.get ⟨i, hi⟩).score +
        (if ∀ c0 ∈ cands.take i, c0.doc_id ≠ (cands.get ⟨i, hi⟩).doc_id
         then (1 : ℚ)/10 else 0) +
        (if headingMatch query (cands.get ⟨i, hi⟩).heading_path
         then (1 : ℚ)/20 else 0)) } := by
  rw [rerankLoop_get?_general query cands [] i hi]
  have hiff : ((cands.get ⟨i, hi⟩).doc_id ∉ ([] : List String) ∧
      ∀ c0 ∈ cands.take i, c0.doc_id ≠ (cands.get ⟨i, hi⟩).doc_id) ↔
      (∀ c0 ∈ cands.take i, c0.doc_id ≠ (cands.get ⟨i, hi⟩).doc_id) := by
    simp
  rw [if_congr hiff rfl rfl]

def cA6 : Candidate :=
  { score := 9/10, doc_id := "A", heading_path := "Top Heading" }

def cB6 : Candidate :=
  { score := 4/5, doc_id := "A", heading_path := "Other" }

/-- C6 (witness): with query "permit heading", the first candidate gets
both bonuses (9/10 + 1/10 + 1/20), the second gets neither — its `doc_id`
was already seen and its heading matches no query token. -/
theorem C6_rerank_formula_witness :
    (rerankLoop "permit heading" [cA6, cB6] []).get? 0 =
      some { cA6 with reranked_score := some (21/20) } ∧
      (rerankLoop "permit heading" [cA6, cB6] []).get? 1 =
        some { cB6 with reranked_score := some (4/5) } :=
  ⟨(C6_rerank_formula "permit heading" [cA6, cB6] 0 (by norm_num)).trans
      (by with_unfolding_all decide),
    (C6_rerank_formula "permit heading" [cA6, cB6] 1 (by norm_num)).trans
      (by with_unfolding_all decide)⟩

/-! ### C7 support -/

theorem leCollect_spec (md : List LEMeta) (t : ℚ) :
    ∀ hits : List (ℚ × Int),
      (∀ p ∈ hits, p.2 ≠ -1 → t ≤ p.1 → p.2.toNat < md.length) →
      exceptIsOk (leCollect md t hits) = true ∧
        (leCollect md t hits = .ok [] ↔
          hits.filter (fun p => decide (p.2 ≠ -1 ∧ t ≤ p.1)) = [])
  | [], _ => ⟨rfl, by rw [leCollect]; simp⟩
  | (s, i) :: rest, hb => by
      have hrest := leCollect_spec md t rest
        (fun p hp => hb p (List.mem_cons_of_mem _ hp))
      rw [leCollect, List.filter_cons]
      by_cases hc : i ≠ -1 ∧ t ≤ s
      · have hlt : i.toNat < md.length := hb (s, i) (List.mem_cons_self ..) hc.1 hc.2
        have hget : md.get? i.toNat = some (md.get ⟨i.toNat, hlt⟩) :=
          List.get?_eq_get hlt
        rw [if_pos hc, hget]
        cases hr : leCollect md t rest with
        | error e =>
            rw [hr] at hrest
            exact absurd hrest.1 (by simp [exceptIsOk])
        | ok r =>
            constructor
            · simp [exceptIsOk, Except.map]
            · simp [Except.map, hc]
      · rw [if_neg hc]
        refine ⟨hrest.1, ?_⟩
        rw [hrest.2]
        simp [hc]

/-- C7 (counterexample).  The claim attributes placeholder synthesis and
continued queryability to "the loader", citing the retriever constructor
and its search path.  The retriever's loader (retrieve.py:80-85) does NOT
synthesize placeholders: a missing `metas.jsonl` degrades `metas` to the
EMPTY list, so for a 1-vector index every raw hit fails the
`i < len(self.metas)` bound (line 138) and vector search returns no
results even though the native search returns an above-threshold hit. -/
theorem C7_loader_counterexample :
    loadIndexAndMetas { faissFile := some idx1, metasFile := none } =
      .ok (idx1, []) ∧
      idx1.ntotal ≠ ([] : List Meta).length ∧
      stC7.search_vectors "q" 12 (7/10) = .ok [] ∧
      idx1.searchFn [1, 0, 0] (min (12 * 3) idx1.ntotal) = [(4/5, 0)] ∧
      (7 : ℚ)/10 ≤ 4/5 := by
  refine ⟨rfl, by norm_num [idx1], by with_unfolding_all decide, rfl, by norm_num⟩

/-- C7 (amended).  It is `LocalEmbeddings.load_index`
(local_embeddings.py:247-270) that, on a missing metadata file, synthesizes
sequential placeholder records `{"id": i}` for `i < ntotal` and stays
queryable: its `search` then succeeds (every raw id has a metadata record)
and returns an empty result exactly when no raw hit passes the
`idx != -1 and score >= threshold` filter.  The `HybridRetriever`
constructor instead degrades to an EMPTY metadata list on a missing
`metas.jsonl` (see the counterexample, where its searches return nothing). -/
theorem C7_loader_placeholders :
    (∀ (st : LocalEmbeddingsState) (idx : FaissIndex),
        st.load_index (some idx) none =
          .ok { st with
                index := some idx
                metadata := (List.range idx.ntotal).map (fun i => ⟨i⟩) }) ∧
      (∀ (st st' : LocalEmbeddingsState) (idx : FaissIndex) (qv : List ℚ)
          (k : Nat) (t : ℚ),
        st.load_index (some idx) none = .ok st' →
        qv.length = idx.d →
        (∀ p ∈ idx.searchFn qv (min k idx.ntotal), p.2 ≠ -1 → t ≤ p.1 →
          p.2.toNat < idx.ntotal) →
        exceptIsOk (st'.search qv k t) = true ∧
          (st'.search qv k t = .ok [] ↔
            (idx.searchFn qv (min k idx.ntotal)).filter
              (fun p => decide (p.2 ≠ -1 ∧ t ≤ p.1)) = [])) ∧
      (∀ (files : Files) (idx : FaissIndex), files.faissFile = some idx →
        files.metasFile = none → loadIndexAndMetas files = .ok (idx, [])) := by
  refine ⟨fun st idx => rfl, ?_, ?_⟩
  · intro st st' idx qv k t hload hdim hbound
    have hst' : st' = { st with
        index := some idx
        metadata := (List.range idx.ntotal).map (fun i => ⟨i⟩) } := by
      rw [show st.load_index (some idx) none =
          .ok { st with
            index := some idx
            metadata := (List.range idx.ntotal).map (fun i => ⟨i⟩) } from rfl] at hload
      injection hload with h
      exact h.symm
    subst hst'
    unfold LocalEmbeddingsState.search
    dsimp only
    have hsearch : idx.search qv (min k idx.ntotal) =
        .ok (idx.searchFn qv (min k idx.ntotal)) := by
      unfold FaissIndex.search
      rw [if_neg (by rw [hdim]; simp)]
    rw [hsearch]
    simp only [Bind.bind, Except.bind]
    have hmdlen : ((List.range idx.ntotal).map
        (fun i => (⟨i⟩ : LEMeta))).length = idx.ntotal := by
      simp
    exact leCollect_spec _ t (idx.searchFn qv (min k idx.ntotal))
      (fun p hp h1 h2 => by rw [hmdlen]; exact hbound p hp h1 h2)
  · intro files idx h1 h2
    unfold loadIndexAndMetas
    rw [h1, h2]

def leSt0 : LocalEmbeddingsState := { dimension := 384 }

/-- C7 (witness): loading `idx1` with a missing metadata file yields the
placeholder record `[{"id": 0}]`, and the loaded state's search over the
raw hit `(4/5, 0)` succeeds and is nonempty. -/
theorem C7_loader_placeholders_witness :
    leSt0.load_index (some idx1) none =
      .ok { leSt0 with
            index := some idx1
            metadata := (List.range idx1.ntotal).map (fun i => ⟨i⟩) } ∧
      exceptIsOk (LocalEmbeddingsState.search
        { leSt0 with
          index := some idx1
          metadata := (List.range idx1.ntotal).map (fun i => ⟨i⟩) }
        [1, 0, 0] 5 (7/10)) = true ∧
      (LocalEmbeddingsState.search
          { leSt0 with
            index := some idx1
            metadata := (List.range idx1.ntotal).map (fun i => ⟨i⟩) }
          [1, 0, 0] 5 (7/10) = .ok [] ↔
        (idx1.searchFn [1, 0, 0] (min 5 idx1.ntotal)).filter
          (fun p => decide (p.2 ≠ -1 ∧ (7 : ℚ)/10 ≤ p.1)) = []) ∧
      loadIndexAndMetas { faissFile := some idx1, metasFile := none } =
        .ok (idx1, []) := by
  have h2 := C7_loader_placeholders.2.1 leSt0
    { leSt0 with
      index := some idx1
      metadata := (List.range idx1.ntotal).map (fun i => ⟨i⟩) }
    idx1 [1, 0, 0] 5 (7/10) (C7_loader_placeholders.1 leSt0 idx1) rfl
    (by with_unfolding_all decide)
  exact ⟨C7_loader_placeholders.1 leSt0 idx1, h2.1, h2.2,
    C7_loader_placeholders.2.2 { faissFile := some idx1, metasFile := none }
      idx1 rfl rfl⟩

/-- C8 (confirmed).  No duplicates and bounded output: every successful
`hybrid` call returns a list with pairwise-distinct `chunk_id`s (the `seen`
set of the fusion loops deduplicates, and scoring/sorting/hydration
preserve the ids) of length at most `final_k` (the final truncation). -/
theorem C8_no_duplicates_bounded (st : HybridRetriever) (query : String)
    (k_vec k_lex final_k : Nat) (t : ℚ) (out : List Candidate)
    (h : st.hybrid query k_vec k_lex final_k t = .ok out) :
    (out.map Candidate.chunk_id).Nodup ∧ out.length ≤ final_k := by
  rcases hybrid_ok_elim st query k_vec k_lex final_k t out h with ⟨vec, _, rfl⟩
  exact ⟨hybridTail_ids_nodup .., hybridTail_length_le ..⟩

/-- C8 (witness): the concrete two-candidate output has distinct ids
"1", "2" and length 2 ≤ 6. -/
theorem C8_no_duplicates_bounded_witness :
    (([cSemOut, cLexOut] : List Candidate).map Candidate.chunk_id).Nodup ∧
      ([cSemOut, cLexOut] : List Candidate).length ≤ 6 :=
  C8_no_duplicates_bounded stBase "q" 12 12 6 (7/10) [cSemOut, cLexOut]
    (by with_unfolding_all decide)

/-- C9 (confirmed).  When `embedding_client is None` — in particular in the
local-embeddings fallback state, where only `local_embedder` is set —
`add_to_index` returns at retrieve.py:265-267 before touching anything:
no exception, and the in-memory index, the metadata list and the persisted
files are all unchanged (the whole state is returned as-is), so
incremental adds are impossible under the local-embeddings fallback. -/
theorem C9_add_to_index_noop (st : HybridRetriever) (texts : List String)
    (metadata : List AddMeta) (batch_size : Nat) (uuids : Nat → String)
    (h : st.embedding_client = none) :
    st.add_to_index texts metadata batch_size uuids = .ok st := by
  unfold HybridRetriever.add_to_index
  rw [h]

/-- C9 (witness): `stBase` carries only the local embedder; adding a text
returns the state unchanged. -/
theorem C9_add_to_index_noop_witness :
    stBase.add_to_index ["t"] [{}] 64 (fun _ => "u") = .ok stBase :=
  C9_add_to_index_noop stBase ["t"] [{}] 64 (fun _ => "u") rfl

/-! ### C10 support -/

theorem pyIntList_none_of_mem :
    ∀ (l : List String) (s : String), s ∈ l → pyInt s = none →
      pyIntList l = none
  | [], s, h, _ => absurd h (by simp)
  | x :: rest, s, h, hp => by
      rw [pyIntList]
      rcases List.mem_cons.mp h with rfl | h
      · rw [hp]
      · rw [pyIntList_none_of_mem rest s h hp]
        cases pyInt x <;> rfl

theorem fetch_texts_empty_of_bad (db : Db) (chunk_ids : List String)
    (h : ∃ cid ∈ chunk_ids, cid ≠ "" ∧ cid ≠ "unknown" ∧ pyInt cid = none) :
    fetch_texts db chunk_ids = [] := by
  rcases h with ⟨cid, hmem, h1, h2, h3⟩
  unfold fetch_texts
  have hne : ¬(chunk_ids = []) := by
    rintro rfl
    exact absurd hmem (by simp)
  rw [if_neg hne]
  have hmf : cid ∈ chunk_ids.filter (fun c => c != "" && c != "unknown") := by
    rw [List.mem_filter]
    refine ⟨hmem, ?_⟩
    simp [h1, h2]
  rw [pyIntList_none_of_mem _ cid hmf h3]

theorem hydrateTexts_take (texts : List (String × String))
    (l : List Candidate) (n : Nat) :
    (hydrateTexts texts l).take n = hydrateTexts texts (l.take n) := by
  unfold hydrateTexts
  rw [List.map_take]

/-- C10 (confirmed).  Text hydration is all-or-nothing per request: if any
chunk id passed to `fetch_texts` (other than `""` or `"unknown"`) is not
parseable as a decimal integer, the whole try block raises and the caught
ValueError empties the returned map (retrieve.py:200-204); consequently
every candidate of that `hybrid` response — whose ids are exactly the ids
passed — gets `text = texts.get(chunk_id, "") = ""`, overwriting even the
lexical candidates' text from the full-text store (retrieve.py:259-260). -/
theorem C10_hydration_all_or_nothing :
    (∀ (db : Db) (chunk_ids : List String),
        (∃ cid ∈ chunk_ids, cid ≠ "" ∧ cid ≠ "unknown" ∧ pyInt cid = none) →
        fetch_texts db chunk_ids = []) ∧
      (∀ (st : HybridRetriever) (query : String) (k_vec k_lex final_k : Nat)
        (t : ℚ) (out : List Candidate),
        st.hybrid query k_vec k_lex final_k t = .ok out →
        (∃ cb ∈ out, cb.chunk_id ≠ "" ∧ cb.chunk_id ≠ "unknown" ∧
          pyInt cb.chunk_id = none) →
        ∀ c ∈ out, c.text = "") := by
  refine ⟨fetch_texts_empty_of_bad, ?_⟩
  intro st query k_vec k_lex final_k t out hout hbad c hc
  rcases hybrid_ok_elim st query k_vec k_lex final_k t out hout with ⟨vec, hv, rfl⟩
  rcases hbad with ⟨cb, hcb, hb1, hb2, hb3⟩
  have htexts : fetch_texts st.db
      (((fuseScoreRank vec (st.search_lexical query k_lex) final_k).take
        final_k).map (fun c => c.chunk_id)) = [] := by
    apply fetch_texts_empty_of_bad
    unfold hybridTail at hcb
    rw [hydrateTexts_take] at hcb
    rcases hydrateTexts_mem _ _ cb hcb with ⟨cb0, hcb0, rfl⟩
    exact ⟨cb0.chunk_id, List.mem_map.mpr ⟨cb0, hcb0, rfl⟩, hb1, hb2, hb3⟩
  unfold hybridTail at hc
  rw [hydrateTexts_take] at hc
  rcases hydrateTexts_mem _ _ c hc with ⟨c0, _, rfl⟩
  show lookupD _ c0.chunk_id "" = ""
  rw [htexts]
  rfl

def cBadSem : Candidate :=
  { score := 4/5, chunk_id := "abc", doc_id := "docA", heading_path := "Heading",
    reranked_score := some (9/10), search_type := some "semantic",
    combined_score := some (9/10) }

def cBadLex : Candidate :=
  { score := 0, chunk_id := "2", doc_id := "docB",
    search_type := some "lexical", combined_score := some 0 }

/-- C10 (witness): with the unparseable indexed id "abc", both output
candidates carry empty text — including the lexical one whose FTS text
"hello" was overwritten. -/
theorem C10_hydration_all_or_nothing_witness :
    cBadSem.text = "" ∧ cBadLex.text = "" :=
  ⟨C10_hydration_all_or_nothing.2 stBad "q" 12 12 6 (7/10) [cBadSem, cBadLex]
      (by with_unfolding_all decide)
      ⟨cBadSem, by simp, by simp [cBadSem], by simp [cBadSem], by decide⟩
      cBadSem (by simp),
    C10_hydration_all_or_nothing.2 stBad "q" 12 12 6 (7/10) [cBadSem, cBadLex]
      (by with_unfolding_all decide)
      ⟨cBadSem, by simp, by simp [cBadSem], by simp [cBadSem], by decide⟩
      cBadLex (by simp)⟩
